import Mathlib

/-!
Verification of the secure-law-vault repository: the LawVault approval
state machine (Solidity contract), the text fingerprint function and the
AES-GCM payload cipher wrapper (TypeScript crypto utility), shallowly
embedded in Lean 4.

Addresses, FHE ciphertext handles and timestamps are modelled as `Nat`;
EVM `uint256` arithmetic never comes close to overflow here (the only
arithmetic is a counter increment), so `Nat` is faithful.  Failing
`require` statements are modelled by `Except String` results carrying the
source's revert strings; Solidity's revert semantics (a failed call leaves
the entire state unchanged) is modelled by the event-step function
returning the pre-state on error.
-/

namespace LawVault

/-- The `ContractStatus` enum of `LawVault` (src/hardhat.config.deploy.ts). -/
inductive ContractStatus where
  | PendingClientApproval
  | PendingLawyerFinalConfirmation
  | Completed
deriving DecidableEq, Repr

open ContractStatus

/-- The `Contract` struct of `LawVault`.  `euint32` handles are abstract
`Nat`s; `exists_` is the source's `exists` flag. -/
structure Contract where
  id : Nat
  title : String
  encryptedContent : Nat
  lawyer : Nat
  client : Nat
  status : ContractStatus
  createdAt : Nat
  clientApprovedAt : Nat
  lawyerConfirmedAt : Nat
  exists_ : Bool
deriving DecidableEq, Repr

/-- The zero value a Solidity `mapping(uint256 => Contract)` returns for a
never-written key: all fields zero, `exists` false, status = enum value 0. -/
def defaultContract : Contract :=
  { id := 0, title := "", encryptedContent := 0, lawyer := 0, client := 0,
    status := PendingClientApproval, createdAt := 0, clientApprovedAt := 0,
    lawyerConfirmedAt := 0, exists_ := false }

/-- Pointwise update of a Solidity mapping modelled as a function. -/
def upd {α : Type} (f : Nat → α) (k : Nat) (v : α) : Nat → α :=
  fun x => if x = k then v else f x

/-- The storage of the `LawVault` contract: the three mappings and the
counter, plus the state of the external FHE access-control collaborator.
`acl` records every `FHE.allow(handle, address)` grant as a pair,
`aclThis` every `FHE.allowThis(handle)` call, and `nextHandle` models the
FHE collaborator handing out a distinct internal handle for each
`FHE.fromExternal` conversion. -/
structure State where
  contracts : Nat → Contract
  clientContracts : Nat → List Nat
  lawyerContracts : Nat → List Nat
  totalContracts : Nat
  acl : List (Nat × Nat)
  aclThis : List Nat
  nextHandle : Nat

/-- Contract storage right after deployment: every mapping empty. -/
def initialState : State :=
  { contracts := fun _ => defaultContract,
    clientContracts := fun _ => [],
    lawyerContracts := fun _ => [],
    totalContracts := 0,
    acl := [],
    aclThis := [],
    nextHandle := 0 }

/-- `LawVault.createContract(title, client, encryptedContent, inputProof)`.
The external ciphertext plus proof is converted by `FHE.fromExternal` into
a fresh internal handle (modelled by `nextHandle`); `FHE.allowThis` is the
only access-list effect.  Returns the new state and the new contract id. -/
def createContract (s : State) (sender : Nat) (title : String) (client : Nat)
    (timestamp : Nat) : Except String (State × Nat) :=
  if client = 0 then .error "Client address cannot be zero"
  else if client = sender then .error "Lawyer and client cannot be the same"
  else if title = "" then .error "Title cannot be empty"
  else
    let contractId := s.totalContracts
    let encryptedEuint32 := s.nextHandle
    let newContract : Contract :=
      { id := contractId, title := title, encryptedContent := encryptedEuint32,
        lawyer := sender, client := client, status := PendingClientApproval,
        createdAt := timestamp, clientApprovedAt := 0, lawyerConfirmedAt := 0,
        exists_ := true }
    .ok ({ s with
            contracts := upd s.contracts contractId newContract,
            clientContracts :=
              upd s.clientContracts client (s.clientContracts client ++ [contractId]),
            lawyerContracts :=
              upd s.lawyerContracts sender (s.lawyerContracts sender ++ [contractId]),
            totalContracts := s.totalContracts + 1,
            aclThis := s.aclThis ++ [encryptedEuint32],
            nextHandle := s.nextHandle + 1 },
          contractId)

/-- `LawVault.clientApprove(contractId)`: guards in source order
(existence, caller, status), then sets the status and the approval
timestamp. -/
def clientApprove (s : State) (sender : Nat) (contractId : Nat)
    (timestamp : Nat) : Except String State :=
  let c := s.contracts contractId
  if c.exists_ = false then .error "Contract does not exist"
  else if ¬ c.client = sender then .error "Only client can approve"
  else if ¬ c.status = PendingClientApproval then
    .error "Contract not in pending client approval status"
  else
    let c' := { c with status := PendingLawyerFinalConfirmation,
                       clientApprovedAt := timestamp }
    .ok { s with contracts := upd s.contracts contractId c' }

/-- `LawVault.lawyerConfirm(contractId)`: guards in source order, then sets
the status and timestamp and grants decryption access on the record's
ciphertext handle to both the lawyer and the client (`FHE.allow` twice). -/
def lawyerConfirm (s : State) (sender : Nat) (contractId : Nat)
    (timestamp : Nat) : Except String State :=
  let c := s.contracts contractId
  if c.exists_ = false then .error "Contract does not exist"
  else if ¬ c.lawyer = sender then .error "Only lawyer can confirm"
  else if ¬ c.status = PendingLawyerFinalConfirmation then
    .error "Contract not in pending lawyer confirmation status"
  else
    let c' := { c with status := Completed, lawyerConfirmedAt := timestamp }
    .ok { s with
            contracts := upd s.contracts contractId c',
            acl := s.acl ++ [(c.encryptedContent, c.lawyer), (c.encryptedContent, c.client)] }

/-- `LawVault.getEncryptedContent(contractId)`: a view; guards in source
order (existence, completion, caller authorization), returns the handle. -/
def getEncryptedContent (s : State) (sender : Nat) (contractId : Nat) :
    Except String Nat :=
  let c := s.contracts contractId
  if c.exists_ = false then .error "Contract does not exist"
  else if ¬ c.status = Completed then
    .error "Contract must be completed to access content"
  else if sender = c.lawyer ∨ sender = c.client then .ok c.encryptedContent
  else .error "Only lawyer or client can access content"

/-- `LawVault.getClientContracts(client)`: a view returning the id list. -/
def getClientContracts (s : State) (client : Nat) : List Nat :=
  s.clientContracts client

/-- `LawVault.getLawyerContracts(lawyer)`: a view returning the id list. -/
def getLawyerContracts (s : State) (lawyer : Nat) : List Nat :=
  s.lawyerContracts lawyer

/-- `LawVault.contractExists(contractId)`. -/
def contractExists (s : State) (contractId : Nat) : Bool :=
  (s.contracts contractId).exists_

/-- One external transaction against the contract: which mutating entry
point is called, by whom, with which arguments, at which block timestamp. -/
inductive Event where
  | create (sender : Nat) (title : String) (client : Nat) (timestamp : Nat)
  | approve (sender : Nat) (contractId : Nat) (timestamp : Nat)
  | confirm (sender : Nat) (contractId : Nat) (timestamp : Nat)

/-- Apply one transaction with EVM revert semantics: a failed `require`
leaves the storage exactly as it was. -/
def step (s : State) (e : Event) : State :=
  match e with
  | .create sender title client timestamp =>
      match createContract s sender title client timestamp with
      | .ok (s', _) => s'
      | .error _ => s
  | .approve sender contractId timestamp =>
      match clientApprove s sender contractId timestamp with
      | .ok s' => s'
      | .error _ => s
  | .confirm sender contractId timestamp =>
      match lawyerConfirm s sender contractId timestamp with
      | .ok s' => s'
      | .error _ => s

/-- Run a sequence of transactions from a state. -/
def run (s : State) (events : List Event) : State :=
  events.foldl step s

/-- A storage state reachable from deployment by some transaction
sequence. -/
def Reachable (s : State) : Prop :=
  ∃ events : List Event, run initialState events = s

end LawVault

namespace CryptoUtil

/-- JavaScript `ToInt32`: reduce an integer modulo `2^32` into the signed
two's-complement range `[-2^31, 2^31)`.  This is what `x & x` (and the
implicit conversion of `<<`) performs in `calculateTextHash`. -/
def toInt32 (x : Int) : Int :=
  (x + 2 ^ 31) % 2 ^ 32 - 2 ^ 31

/-- One iteration of the `calculateTextHash` loop
(src crypto utility, `hash = ((hash << 5) - hash) + char; hash = hash & hash`):
`hash << 5` first coerces to int32, the subtraction and addition are exact
(double-precision, small operands), and `hash & hash` coerces back. -/
def hashStep (hash : Int) (c : Nat) : Int :=
  toInt32 (toInt32 (hash * 32) - hash + c)

/-- `calculateTextHash(text)`: the text is its sequence of UTF-16 code
unit values (JavaScript `charCodeAt`).  Returns
`Math.abs(hash) % 2147483647`. -/
def calculateTextHash (text : List Nat) : Nat :=
  (text.foldl hashStep 0).natAbs % 2147483647

/-- The accumulation step as the spec words it:
`hash = (hash*31 + codepoint) mod 2^32` with two's-complement wrap. -/
def specHashStep (hash : Int) (c : Nat) : Int :=
  toInt32 (hash * 31 + c)

/-- The external AEAD collaborators used by `encryptText`/`decryptText`
(Web Crypto API, an opaque capability): PBKDF2 key derivation from a
password and a salt, and AES-GCM encryption/decryption under a key and a
96-bit IV.  Keys are opaque; byte strings are `List Nat`. -/
structure WebCrypto where
  deriveKey : List Nat → List Nat → List Nat
  aeadEncrypt : List Nat → List Nat → List Nat → List Nat
  aeadDecrypt : List Nat → List Nat → List Nat → Option (List Nat)

/-- The AEAD contract of AES-GCM: decrypting with the same key and IV
recovers exactly the plaintext. -/
def WebCrypto.RoundTrip (W : WebCrypto) : Prop :=
  ∀ key iv data, W.aeadDecrypt key iv (W.aeadEncrypt key iv data) = some data

/-- `encryptText(text, password)` up to the final base64 transport
encoding: derive the key from the password and a fresh 16-byte salt,
AES-GCM-encrypt under a fresh 12-byte IV, and assemble the blob
`salt || iv || ciphertext-and-tag` (the `combined` array).  The two
random byte strings drawn from `crypto.getRandomValues` are passed as
arguments. -/
def encryptText (W : WebCrypto) (salt iv : List Nat) (text password : List Nat) :
    List Nat :=
  let key := W.deriveKey password salt
  let encrypted := W.aeadEncrypt key iv text
  salt ++ iv ++ encrypted

/-- `decryptText(encryptedData, password)` after base64 transport
decoding: slice the blob at offsets 16 and 28, re-derive the key from the
embedded salt, and AES-GCM-decrypt; `none` is the thrown decryption
error. -/
def decryptText (W : WebCrypto) (blob password : List Nat) :
    Option (List Nat) :=
  let salt := blob.take 16
  let iv := (blob.drop 16).take 12
  let encrypted := blob.drop 28
  let key := W.deriveKey password salt
  W.aeadDecrypt key iv encrypted

/-- A degenerate instance of the external Web Crypto collaborator, used to
exhibit the cipher theorems at concrete inputs. -/
def idCrypto : WebCrypto :=
  { deriveKey := fun _ _ => [],
    aeadEncrypt := fun _ _ data => data,
    aeadDecrypt := fun _ _ c => some c }

end CryptoUtil

namespace LawVault

/-- Numeric height of a status in the lifecycle order
PendingClientApproval → PendingLawyerFinalConfirmation → Completed. -/
def statusRank : ContractStatus → Nat
  | .PendingClientApproval => 0
  | .PendingLawyerFinalConfirmation => 1
  | .Completed => 2

/-- The `Except`-level outcome of a transaction (`step` keeps the
pre-state exactly when this is an error, modelling EVM revert). -/
def txResult (s : State) (e : Event) : Except String State :=
  match e with
  | .create sender title client timestamp =>
      (createContract s sender title client timestamp).map (fun r => r.1)
  | .approve sender contractId timestamp =>
      clientApprove s sender contractId timestamp
  | .confirm sender contractId timestamp =>
      lawyerConfirm s sender contractId timestamp

/-- The inductive invariant of `LawVault` storage: ids above the counter
are untouched, ciphertext handles of stored records are pairwise distinct
and below the FHE handle counter, the access-control list contains exactly
the lawyer/client grants of Completed records, and the two party indexes
list exactly the ids whose record carries that party, in creation order. -/
structure Inv (s : State) : Prop where
  fresh : ∀ id, s.totalContracts ≤ id → s.contracts id = defaultContract
  handleLt : ∀ id, id < s.totalContracts →
    (s.contracts id).encryptedContent < s.nextHandle
  handleInj : ∀ id id', id < s.totalContracts → id' < s.totalContracts →
    id ≠ id' → (s.contracts id).encryptedContent ≠ (s.contracts id').encryptedContent
  aclSound : ∀ p ∈ s.acl, ∃ id, id < s.totalContracts ∧
    p.1 = (s.contracts id).encryptedContent ∧
    (s.contracts id).status = ContractStatus.Completed ∧
    (p.2 = (s.contracts id).lawyer ∨ p.2 = (s.contracts id).client)
  aclComplete : ∀ id, id < s.totalContracts →
    (s.contracts id).status = ContractStatus.Completed →
    ((s.contracts id).encryptedContent, (s.contracts id).lawyer) ∈ s.acl ∧
    ((s.contracts id).encryptedContent, (s.contracts id).client) ∈ s.acl
  clientIdx : ∀ a, s.clientContracts a =
    (List.range s.totalContracts).filter (fun id => (s.contracts id).client == a)
  lawyerIdx : ∀ a, s.lawyerContracts a =
    (List.range s.totalContracts).filter (fun id => (s.contracts id).lawyer == a)

/-- Demo transaction sequence: lawyer `1` creates a record for client `2`,
the client approves, the lawyer confirms. -/
def demoEvents : List Event :=
  [Event.create 1 "NDA" 2 10, Event.approve 2 0 20, Event.confirm 1 0 30]

/-- State after the create. -/
def demo1 : State := run initialState [Event.create 1 "NDA" 2 10]

/-- State after create and client approval. -/
def demo2 : State := run initialState [Event.create 1 "NDA" 2 10, Event.approve 2 0 20]

/-- State after the full demo sequence (record 0 Completed). -/
def demo3 : State := run initialState demoEvents

end LawVault

namespace CryptoUtil

lemma hashStep_eq_specHashStep (h : Int) (c : Nat) : hashStep h c = specHashStep h c := by
  unfold hashStep specHashStep toInt32
  have h31 : (2 : Int) ^ 31 = 2147483648 := by norm_num
  have h32 : (2 : Int) ^ 32 = 4294967296 := by norm_num
  rw [h31, h32]
  omega

lemma foldl_hashStep_eq (text : List Nat) :
    ∀ h : Int, text.foldl hashStep h = text.foldl specHashStep h := by
  induction text with
  | nil => intro h; rfl
  | cons c cs ih => intro h; simp only [List.foldl, hashStep_eq_specHashStep]; exact ih _

/-- C2: `calculateTextHash` accumulates exactly
`hash = (hash*31 + codepoint) mod 2^32` in two's-complement semantics
starting from 0 and returns `abs(hash) mod (2^31 - 1)`; the result always
lies in `[0, 2^31 - 2]`. -/
theorem calculateTextHash_spec (text : List Nat) :
    calculateTextHash text = (text.foldl specHashStep 0).natAbs % (2 ^ 31 - 1)
    ∧ calculateTextHash text ≤ 2 ^ 31 - 2 := by
  have hmod : calculateTextHash text = (text.foldl hashStep 0).natAbs % 2147483647 := rfl
  have hlt : (text.foldl hashStep 0).natAbs % 2147483647 < 2147483647 :=
    Nat.mod_lt _ (by norm_num)
  constructor
  · rw [hmod, foldl_hashStep_eq]
    norm_num
  · omega

lemma idCrypto_roundTrip : idCrypto.RoundTrip := fun _ _ _ => rfl

lemma blob_take_16 (salt rest : List Nat) (hs : salt.length = 16) :
    (salt ++ rest).take 16 = salt := by
  rw [List.take_append_of_le_length (by omega), List.take_of_length_le (by omega)]

lemma blob_drop_16 (salt rest : List Nat) (hs : salt.length = 16) :
    (salt ++ rest).drop 16 = rest := by
  rw [List.drop_append_of_le_length (by omega)]
  have h : salt.drop 16 = [] := List.drop_eq_nil_of_le (by omega)
  rw [h, List.nil_append]

/-- C6: decrypting the output of `encryptText` with the same passphrase
returns the plaintext: the decryptor re-derives the key from the salt
embedded in the blob, slices out the IV and ciphertext, and the AEAD
round-trip property of AES-GCM finishes.  `salt`/`iv` have the lengths
`crypto.getRandomValues` produces in the source (16 and 12 bytes). -/
theorem decryptText_encryptText (W : WebCrypto) (hW : W.RoundTrip)
    (salt iv text password : List Nat)
    (hs : salt.length = 16) (hi : iv.length = 12) :
    decryptText W (encryptText W salt iv text password) password = some text := by
  unfold decryptText encryptText
  have h16 : (salt ++ (iv ++ W.aeadEncrypt (W.deriveKey password salt) iv text)).take 16
      = salt := blob_take_16 _ _ hs
  have hd16 : (salt ++ (iv ++ W.aeadEncrypt (W.deriveKey password salt) iv text)).drop 16
      = iv ++ W.aeadEncrypt (W.deriveKey password salt) iv text := blob_drop_16 _ _ hs
  simp only [List.append_assoc, h16, hd16]
  have h12 : (iv ++ W.aeadEncrypt (W.deriveKey password salt) iv text).take 12 = iv := by
    rw [List.take_append_of_le_length (by omega), List.take_of_length_le (by omega)]
  have hdrop : (salt ++ (iv ++ W.aeadEncrypt (W.deriveKey password salt) iv text)).drop 28
      = W.aeadEncrypt (W.deriveKey password salt) iv text := by
    have h2816 : (28 : Nat) = 16 + 12 := by norm_num
    rw [h2816, ← List.drop_drop, hd16, List.drop_append_of_le_length (by omega)]
    have h' : iv.drop 12 = [] := List.drop_eq_nil_of_le (by omega)
    rw [h', List.nil_append]
  rw [h12, hdrop]
  exact hW _ _ _

/-- C6 witness at concrete inputs. -/
theorem decryptText_encryptText_witness :
    decryptText idCrypto
      (encryptText idCrypto (List.replicate 16 7) (List.replicate 12 9) [1, 2, 3] [5])
      [5] = some [1, 2, 3] :=
  decryptText_encryptText idCrypto idCrypto_roundTrip _ _ _ _ (by decide) (by decide)

/-- C7: every blob produced by `encryptText` is exactly
`salt (16B) || nonce (12B) || AEAD-ciphertext-and-tag`, and `decryptText`
parses its input at exactly those offsets (bytes 0-15 salt, 16-27 nonce,
28 onward ciphertext-and-tag). -/
theorem blob_layout (W : WebCrypto) (salt iv text password : List Nat)
    (hs : salt.length = 16) (hi : iv.length = 12) :
    encryptText W salt iv text password =
      salt ++ iv ++ W.aeadEncrypt (W.deriveKey password salt) iv text
    ∧ (encryptText W salt iv text password).take 16 = salt
    ∧ ((encryptText W salt iv text password).drop 16).take 12 = iv
    ∧ (encryptText W salt iv text password).drop 28 =
        W.aeadEncrypt (W.deriveKey password salt) iv text
    ∧ (∀ blob pw, decryptText W blob pw =
        W.aeadDecrypt (W.deriveKey pw (blob.take 16)) ((blob.drop 16).take 12)
          (blob.drop 28)) := by
  have hblob : encryptText W salt iv text password =
      salt ++ (iv ++ W.aeadEncrypt (W.deriveKey password salt) iv text) := by
    unfold encryptText; simp [List.append_assoc]
  refine ⟨by rw [hblob]; simp [List.append_assoc], ?_, ?_, ?_, fun blob pw => rfl⟩
  · rw [hblob]; exact blob_take_16 _ _ hs
  · rw [hblob, blob_drop_16 _ _ hs, List.take_append_of_le_length (by omega),
      List.take_of_length_le (by omega)]
  · have h2816 : (28 : Nat) = 16 + 12 := by norm_num
    rw [hblob, h2816, ← List.drop_drop, blob_drop_16 _ _ hs,
      List.drop_append_of_le_length (by omega)]
    have h' : iv.drop 12 = [] := List.drop_eq_nil_of_le (by omega)
    rw [h', List.nil_append]

/-- C7 witness at concrete inputs. -/
theorem blob_layout_witness :
    encryptText idCrypto (List.replicate 16 7) (List.replicate 12 9) [1, 2] [5] =
      List.replicate 16 7 ++ List.replicate 12 9 ++
        idCrypto.aeadEncrypt (idCrypto.deriveKey [5] (List.replicate 16 7))
          (List.replicate 12 9) [1, 2]
    ∧ (encryptText idCrypto (List.replicate 16 7) (List.replicate 12 9) [1, 2] [5]).take 16
        = List.replicate 16 7
    ∧ ((encryptText idCrypto (List.replicate 16 7) (List.replicate 12 9) [1, 2] [5]).drop 16).take 12
        = List.replicate 12 9
    ∧ (encryptText idCrypto (List.replicate 16 7) (List.replicate 12 9) [1, 2] [5]).drop 28
        = idCrypto.aeadEncrypt (idCrypto.deriveKey [5] (List.replicate 16 7))
            (List.replicate 12 9) [1, 2]
    ∧ (∀ blob pw, decryptText idCrypto blob pw =
        idCrypto.aeadDecrypt (idCrypto.deriveKey pw (blob.take 16))
          ((blob.drop 16).take 12) (blob.drop 28)) :=
  blob_layout idCrypto _ _ _ _ (by decide) (by decide)

end CryptoUtil

namespace LawVault

lemma upd_same {α : Type} (f : Nat → α) (k : Nat) (v : α) : upd f k v k = v := by
  simp [upd]

lemma upd_ne {α : Type} (f : Nat → α) (k : Nat) (v : α) {x : Nat} (h : x ≠ k) :
    upd f k v x = f x := by
  simp [upd, h]

lemma createContract_ok_iff (s : State) (sender : Nat) (title : String)
    (client t : Nat) :
    (∃ r, createContract s sender title client t = .ok r) ↔
      (¬client = 0 ∧ ¬client = sender ∧ ¬title = "") := by
  unfold createContract
  split_ifs with h1 h2 h3 <;> simp_all

lemma createContract_ok (s : State) (sender : Nat) (title : String)
    (client t : Nat) (s' : State) (cid : Nat)
    (h : createContract s sender title client t = .ok (s', cid)) :
    ¬client = 0 ∧ ¬client = sender ∧ ¬title = "" ∧ cid = s.totalContracts ∧
    s' = { s with
            contracts := upd s.contracts s.totalContracts
              { id := s.totalContracts, title := title,
                encryptedContent := s.nextHandle, lawyer := sender,
                client := client, status := ContractStatus.PendingClientApproval,
                createdAt := t, clientApprovedAt := 0, lawyerConfirmedAt := 0,
                exists_ := true },
            clientContracts := upd s.clientContracts client
              (s.clientContracts client ++ [s.totalContracts]),
            lawyerContracts := upd s.lawyerContracts sender
              (s.lawyerContracts sender ++ [s.totalContracts]),
            totalContracts := s.totalContracts + 1,
            aclThis := s.aclThis ++ [s.nextHandle],
            nextHandle := s.nextHandle + 1 } := by
  unfold createContract at h
  split_ifs at h with h1 h2 h3
  refine ⟨h1, h2, h3, ?_, ?_⟩ <;> cases h <;> rfl

lemma clientApprove_ok (s : State) (sender cid t : Nat) (s' : State)
    (h : clientApprove s sender cid t = .ok s') :
    (s.contracts cid).exists_ = true ∧ (s.contracts cid).client = sender ∧
    (s.contracts cid).status = ContractStatus.PendingClientApproval ∧
    s' = { s with contracts := upd s.contracts cid
                    { s.contracts cid with
                        status := ContractStatus.PendingLawyerFinalConfirmation,
                        clientApprovedAt := t } } := by
  simp only [clientApprove] at h
  split_ifs at h with h1 h2 h3
  refine ⟨by simpa using h1, by simpa using h2, by simpa using h3, ?_⟩
  cases h
  rfl

lemma clientApprove_ok_iff (s : State) (sender cid t : Nat) :
    (∃ s', clientApprove s sender cid t = .ok s') ↔
      ((s.contracts cid).exists_ = true ∧ (s.contracts cid).client = sender ∧
       (s.contracts cid).status = ContractStatus.PendingClientApproval) := by
  simp only [clientApprove]
  split_ifs with h1 h2 h3 <;> simp_all

lemma lawyerConfirm_ok (s : State) (sender cid t : Nat) (s' : State)
    (h : lawyerConfirm s sender cid t = .ok s') :
    (s.contracts cid).exists_ = true ∧ (s.contracts cid).lawyer = sender ∧
    (s.contracts cid).status = ContractStatus.PendingLawyerFinalConfirmation ∧
    s' = { s with
            contracts := upd s.contracts cid
              { s.contracts cid with
                  status := ContractStatus.Completed,
                  lawyerConfirmedAt := t },
            acl := s.acl ++
              [((s.contracts cid).encryptedContent, (s.contracts cid).lawyer),
               ((s.contracts cid).encryptedContent, (s.contracts cid).client)] } := by
  simp only [lawyerConfirm] at h
  split_ifs at h with h1 h2 h3
  refine ⟨by simpa using h1, by simpa using h2, by simpa using h3, ?_⟩
  cases h
  rfl

lemma inv_initial : Inv initialState := by
  constructor
  · intro id _
    rfl
  · intro id hid
    exact absurd hid (Nat.not_lt_zero id)
  · intro id id' hid _ _
    exact absurd hid (Nat.not_lt_zero id)
  · intro p hp
    exact absurd hp (List.not_mem_nil p)
  · intro id hid
    exact absurd hid (Nat.not_lt_zero id)
  · intro a
    rfl
  · intro a
    rfl

lemma inv_createContract (s : State) (sender : Nat) (title : String)
    (client t : Nat) (s' : State) (cid : Nat) (hInv : Inv s)
    (h : createContract s sender title client t = .ok (s', cid)) : Inv s' := by
  obtain ⟨h0, hcs, ht, hcid, hs'⟩ := createContract_ok _ _ _ _ _ _ _ h
  subst hs'
  constructor
  · intro id hid
    simp only at hid ⊢
    rw [upd_ne _ _ _ (by omega)]
    exact hInv.fresh id (by omega)
  · intro id hid
    simp only at hid ⊢
    by_cases hide : id = s.totalContracts
    · subst hide
      rw [upd_same]
      exact Nat.lt_succ_self _
    · rw [upd_ne _ _ _ hide]
      have := hInv.handleLt id (by omega)
      exact Nat.lt_succ_of_lt this
  · intro id id' hid hid' hne
    simp only at hid hid' ⊢
    by_cases hide : id = s.totalContracts
    · subst hide
      rw [upd_same, upd_ne _ _ _ (by omega)]
      have := hInv.handleLt id' (by omega)
      show s.nextHandle ≠ (s.contracts id').encryptedContent
      omega
    · by_cases hide' : id' = s.totalContracts
      · subst hide'
        rw [upd_same, upd_ne _ _ _ hide]
        have := hInv.handleLt id (by omega)
        show (s.contracts id).encryptedContent ≠ s.nextHandle
        omega
      · rw [upd_ne _ _ _ hide, upd_ne _ _ _ hide']
        exact hInv.handleInj id id' (by omega) (by omega) hne
  · intro p hp
    simp only at hp ⊢
    obtain ⟨id, hlt, hp1, hst, hp2⟩ := hInv.aclSound p hp
    refine ⟨id, by omega, ?_, ?_, ?_⟩ <;> rw [upd_ne _ _ _ (by omega)]
    · exact hp1
    · exact hst
    · exact hp2
  · intro id hid hst
    simp only at hid hst ⊢
    by_cases hide : id = s.totalContracts
    · subst hide
      rw [upd_same] at hst
      exact absurd hst (by simp)
    · rw [upd_ne _ _ _ hide] at hst ⊢
      exact hInv.aclComplete id (by omega) hst
  · intro a
    simp only
    rw [List.range_succ, List.filter_append]
    have hcongr : (List.range s.totalContracts).filter
        (fun id => ((upd s.contracts s.totalContracts
          { id := s.totalContracts, title := title,
            encryptedContent := s.nextHandle, lawyer := sender,
            client := client, status := ContractStatus.PendingClientApproval,
            createdAt := t, clientApprovedAt := 0, lawyerConfirmedAt := 0,
            exists_ := true }) id).client == a)
        = (List.range s.totalContracts).filter (fun id => (s.contracts id).client == a) := by
      apply List.filter_congr
      intro x hx
      rw [List.mem_range] at hx
      rw [upd_ne _ _ _ (by omega)]
    rw [hcongr, ← hInv.clientIdx a]
    by_cases ha : a = client
    · subst ha
      simp [upd]
    · have ha' : ¬client = a := fun hh => ha hh.symm
      simp [upd, ha, ha']
  · intro a
    simp only
    rw [List.range_succ, List.filter_append]
    have hcongr : (List.range s.totalContracts).filter
        (fun id => ((upd s.contracts s.totalContracts
          { id := s.totalContracts, title := title,
            encryptedContent := s.nextHandle, lawyer := sender,
            client := client, status := ContractStatus.PendingClientApproval,
            createdAt := t, clientApprovedAt := 0, lawyerConfirmedAt := 0,
            exists_ := true }) id).lawyer == a)
        = (List.range s.totalContracts).filter (fun id => (s.contracts id).lawyer == a) := by
      apply List.filter_congr
      intro x hx
      rw [List.mem_range] at hx
      rw [upd_ne _ _ _ (by omega)]
    rw [hcongr, ← hInv.lawyerIdx a]
    by_cases ha : a = sender
    · subst ha
      simp [upd]
    · have ha' : ¬sender = a := fun hh => ha hh.symm
      simp [upd, ha, ha']

lemma exists_lt_total (s : State) (hInv : Inv s) (cid : Nat)
    (hex : (s.contracts cid).exists_ = true) : cid < s.totalContracts := by
  by_contra hlt
  push_neg at hlt
  rw [hInv.fresh cid hlt] at hex
  simp [defaultContract] at hex

lemma inv_clientApprove (s : State) (sender cid t : Nat) (s' : State)
    (hInv : Inv s) (h : clientApprove s sender cid t = .ok s') : Inv s' := by
  obtain ⟨hex, hcl, hst, hs'⟩ := clientApprove_ok _ _ _ _ _ h
  have hlt := exists_lt_total s hInv cid hex
  subst hs'
  have hHandle : ∀ id, ((upd s.contracts cid
      { s.contracts cid with
          status := ContractStatus.PendingLawyerFinalConfirmation,
          clientApprovedAt := t }) id).encryptedContent
      = (s.contracts id).encryptedContent := by
    intro id
    by_cases hid : id = cid
    · subst hid; rw [upd_same]
    · rw [upd_ne _ _ _ hid]
  have hClient : ∀ id, ((upd s.contracts cid
      { s.contracts cid with
          status := ContractStatus.PendingLawyerFinalConfirmation,
          clientApprovedAt := t }) id).client = (s.contracts id).client := by
    intro id
    by_cases hid : id = cid
    · subst hid; rw [upd_same]
    · rw [upd_ne _ _ _ hid]
  have hLawyer : ∀ id, ((upd s.contracts cid
      { s.contracts cid with
          status := ContractStatus.PendingLawyerFinalConfirmation,
          clientApprovedAt := t }) id).lawyer = (s.contracts id).lawyer := by
    intro id
    by_cases hid : id = cid
    · subst hid; rw [upd_same]
    · rw [upd_ne _ _ _ hid]
  constructor
  · intro id hid
    simp only at hid ⊢
    rw [upd_ne _ _ _ (by omega)]
    exact hInv.fresh id hid
  · intro id hid
    simp only at hid ⊢
    rw [hHandle id]
    exact hInv.handleLt id hid
  · intro id id' hid hid' hne
    simp only at hid hid' ⊢
    rw [hHandle id, hHandle id']
    exact hInv.handleInj id id' hid hid' hne
  · intro p hp
    simp only at hp ⊢
    obtain ⟨id, hidlt, h1, h2, h3⟩ := hInv.aclSound p hp
    have hne : id ≠ cid := by
      intro he
      rw [he, hst] at h2
      exact absurd h2 (by decide)
    refine ⟨id, hidlt, ?_, ?_, ?_⟩ <;> rw [upd_ne _ _ _ hne]
    · exact h1
    · exact h2
    · exact h3
  · intro id hid hcomp
    simp only at hid hcomp ⊢
    by_cases hide : id = cid
    · subst hide
      rw [upd_same] at hcomp
      simp at hcomp
    · rw [upd_ne _ _ _ hide] at hcomp ⊢
      exact hInv.aclComplete id hid hcomp
  · intro a
    simp only
    rw [hInv.clientIdx a]
    exact List.filter_congr fun x _ => by rw [hClient x]
  · intro a
    simp only
    rw [hInv.lawyerIdx a]
    exact List.filter_congr fun x _ => by rw [hLawyer x]

lemma inv_lawyerConfirm (s : State) (sender cid t : Nat) (s' : State)
    (hInv : Inv s) (h : lawyerConfirm s sender cid t = .ok s') : Inv s' := by
  obtain ⟨hex, hla, hst, hs'⟩ := lawyerConfirm_ok _ _ _ _ _ h
  have hlt := exists_lt_total s hInv cid hex
  subst hs'
  have hHandle : ∀ id, ((upd s.contracts cid
      { s.contracts cid with
          status := ContractStatus.Completed,
          lawyerConfirmedAt := t }) id).encryptedContent
      = (s.contracts id).encryptedContent := by
    intro id
    by_cases hid : id = cid
    · subst hid; rw [upd_same]
    · rw [upd_ne _ _ _ hid]
  have hClient : ∀ id, ((upd s.contracts cid
      { s.contracts cid with
          status := ContractStatus.Completed,
          lawyerConfirmedAt := t }) id).client = (s.contracts id).client := by
    intro id
    by_cases hid : id = cid
    · subst hid; rw [upd_same]
    · rw [upd_ne _ _ _ hid]
  have hLawyer : ∀ id, ((upd s.contracts cid
      { s.contracts cid with
          status := ContractStatus.Completed,
          lawyerConfirmedAt := t }) id).lawyer = (s.contracts id).lawyer := by
    intro id
    by_cases hid : id = cid
    · subst hid; rw [upd_same]
    · rw [upd_ne _ _ _ hid]
  constructor
  · intro id hid
    simp only at hid ⊢
    rw [upd_ne _ _ _ (by omega)]
    exact hInv.fresh id hid
  · intro id hid
    simp only at hid ⊢
    rw [hHandle id]
    exact hInv.handleLt id hid
  · intro id id' hid hid' hne
    simp only at hid hid' ⊢
    rw [hHandle id, hHandle id']
    exact hInv.handleInj id id' hid hid' hne
  · intro p hp
    simp only at hp ⊢
    rcases List.mem_append.1 hp with hpold | hpnew
    · obtain ⟨id, hidlt, h1, h2, h3⟩ := hInv.aclSound p hpold
      have hne : id ≠ cid := by
        intro he
        rw [he, hst] at h2
        exact absurd h2 (by decide)
      refine ⟨id, hidlt, ?_, ?_, ?_⟩ <;> rw [upd_ne _ _ _ hne]
      · exact h1
      · exact h2
      · exact h3
    · simp only [List.mem_cons, List.not_mem_nil, or_false] at hpnew
      rcases hpnew with rfl | rfl
      · exact ⟨cid, hlt, by rw [upd_same], by rw [upd_same], Or.inl (by rw [upd_same])⟩
      · exact ⟨cid, hlt, by rw [upd_same], by rw [upd_same], Or.inr (by rw [upd_same])⟩
  · intro id hid hcomp
    simp only at hid hcomp ⊢
    by_cases hide : id = cid
    · subst hide
      constructor <;> rw [upd_same] <;>
        exact List.mem_append_right _ (by simp)
    · rw [upd_ne _ _ _ hide] at hcomp ⊢
      obtain ⟨hml, hmc⟩ := hInv.aclComplete id hid hcomp
      exact ⟨List.mem_append_left _ hml, List.mem_append_left _ hmc⟩
  · intro a
    simp only
    rw [hInv.clientIdx a]
    exact List.filter_congr fun x _ => by rw [hClient x]
  · intro a
    simp only
    rw [hInv.lawyerIdx a]
    exact List.filter_congr fun x _ => by rw [hLawyer x]

lemma inv_step (s : State) (e : Event) (hInv : Inv s) : Inv (step s e) := by
  cases e with
  | create sender title client t =>
      simp only [step]
      cases hc : createContract s sender title client t with
      | ok r =>
          obtain ⟨s', cid⟩ := r
          exact inv_createContract s sender title client t s' cid hInv hc
      | error m => exact hInv
  | approve sender cid t =>
      simp only [step]
      cases hc : clientApprove s sender cid t with
      | ok s' => exact inv_clientApprove s sender cid t s' hInv hc
      | error m => exact hInv
  | confirm sender cid t =>
      simp only [step]
      cases hc : lawyerConfirm s sender cid t with
      | ok s' => exact inv_lawyerConfirm s sender cid t s' hInv hc
      | error m => exact hInv

lemma inv_run (s : State) (evts : List Event) (hInv : Inv s) :
    Inv (run s evts) := by
  induction evts generalizing s with
  | nil => exact hInv
  | cons e es ih => exact ih (step s e) (inv_step s e hInv)

lemma reachable_inv (s : State) (h : Reachable s) : Inv s := by
  obtain ⟨evts, he⟩ := h
  rw [← he]
  exact inv_run initialState evts inv_initial

lemma reachable_step (s : State) (e : Event) (h : Reachable s) :
    Reachable (step s e) := by
  obtain ⟨evts, he⟩ := h
  refine ⟨evts ++ [e], ?_⟩
  simp only [run, List.foldl_append] at he ⊢
  rw [he]
  rfl

lemma reachable_run (s : State) (evts : List Event) (h : Reachable s) :
    Reachable (run s evts) := by
  obtain ⟨e0, he⟩ := h
  refine ⟨e0 ++ evts, ?_⟩
  simp only [run, List.foldl_append] at he ⊢
  rw [he]

lemma lawyerConfirm_ok_iff (s : State) (sender cid t : Nat) :
    (∃ s', lawyerConfirm s sender cid t = .ok s') ↔
      ((s.contracts cid).exists_ = true ∧ (s.contracts cid).lawyer = sender ∧
       (s.contracts cid).status = ContractStatus.PendingLawyerFinalConfirmation) := by
  simp only [lawyerConfirm]
  split_ifs with h1 h2 h3 <;> simp_all

/-- C3: `getEncryptedContent` (the spec's `getEncryptedFingerprint`) fails
for every existing record whose status is not Completed; once the record
is Completed it succeeds (returning the ciphertext handle) exactly when
the caller is the record's lawyer or its client, and fails with the
authorization error for every other caller.  It is side-effect-free: the
embedding types it as a pure view that returns no new state. -/
theorem getEncryptedContent_gating (s : State) (cid : Nat) :
    (∀ sender, (s.contracts cid).exists_ = true →
      ¬(s.contracts cid).status = ContractStatus.Completed →
      getEncryptedContent s sender cid =
        .error "Contract must be completed to access content")
    ∧ (∀ sender, (s.contracts cid).exists_ = true →
        (s.contracts cid).status = ContractStatus.Completed →
        ((∃ v, getEncryptedContent s sender cid = .ok v) ↔
          (sender = (s.contracts cid).lawyer ∨ sender = (s.contracts cid).client)))
    ∧ (∀ sender, (s.contracts cid).exists_ = true →
        (s.contracts cid).status = ContractStatus.Completed →
        (sender = (s.contracts cid).lawyer ∨ sender = (s.contracts cid).client) →
        getEncryptedContent s sender cid = .ok (s.contracts cid).encryptedContent)
    ∧ (∀ sender, (s.contracts cid).exists_ = true →
        (s.contracts cid).status = ContractStatus.Completed →
        ¬(sender = (s.contracts cid).lawyer ∨ sender = (s.contracts cid).client) →
        getEncryptedContent s sender cid =
          .error "Only lawyer or client can access content") := by
  refine ⟨?_, ?_, ?_, ?_⟩ <;> intro sender <;> simp only [getEncryptedContent] <;>
    split_ifs <;> simp_all

/-- C3 witness: on the demo run, record `0` is still pending in `demo1`
(any caller gets the not-completed failure) and Completed in `demo3`
(the client succeeds, a third party gets the authorization failure). -/
theorem getEncryptedContent_gating_witness :
    getEncryptedContent demo1 5 0 =
      .error "Contract must be completed to access content"
    ∧ ((∃ v, getEncryptedContent demo3 2 0 = .ok v) ↔
        (2 = (demo3.contracts 0).lawyer ∨ 2 = (demo3.contracts 0).client))
    ∧ getEncryptedContent demo3 2 0 = .ok (demo3.contracts 0).encryptedContent
    ∧ getEncryptedContent demo3 7 0 =
        .error "Only lawyer or client can access content" :=
  ⟨(getEncryptedContent_gating demo1 0).1 5 (by decide) (by decide),
   (getEncryptedContent_gating demo3 0).2.1 2 (by decide) (by decide),
   (getEncryptedContent_gating demo3 0).2.2.1 2 (by decide) (by decide) (by decide),
   (getEncryptedContent_gating demo3 0).2.2.2 7 (by decide) (by decide) (by decide)⟩

/-- C9: `getEncryptedContent` checks existence, then status, then caller
identity, in that fixed order: a non-existent id always gets the
existence failure, and for an existing, not-yet-Completed record a caller
who is neither lawyer nor client receives the not-completed failure, not
the authorization failure. -/
theorem getEncryptedContent_check_order (s : State) :
    (∀ sender cid, (s.contracts cid).exists_ = false →
      getEncryptedContent s sender cid = .error "Contract does not exist")
    ∧ (∀ sender cid, (s.contracts cid).exists_ = true →
        ¬(s.contracts cid).status = ContractStatus.Completed →
        ¬(sender = (s.contracts cid).lawyer ∨ sender = (s.contracts cid).client) →
        getEncryptedContent s sender cid =
          .error "Contract must be completed to access content") := by
  refine ⟨?_, ?_⟩ <;> intro sender cid <;> simp only [getEncryptedContent] <;>
    split_ifs <;> simp_all

/-- C9 witness: in `demo1`, id `5` does not exist, and the stranger `7`
asking for the pending record `0` gets the not-completed failure. -/
theorem getEncryptedContent_check_order_witness :
    getEncryptedContent demo1 7 5 = .error "Contract does not exist"
    ∧ getEncryptedContent demo1 7 0 =
        .error "Contract must be completed to access content" :=
  ⟨(getEncryptedContent_check_order demo1).1 7 5 (by decide),
   (getEncryptedContent_check_order demo1).2 7 0 (by decide) (by decide) (by decide)⟩

/-- C1: the three transitions of the state machine, exactly as the code
guards them.  `createContract` succeeds iff the client is neither the
zero identity nor the caller and the title is non-empty, and then writes
a record with id `totalContracts`, the caller as lawyer, status
PendingClientApproval (the slot was unused beforehand in any reachable
state); `clientApprove` succeeds iff the record exists, the caller is its
client, and the status is PendingClientApproval, moving it to
PendingLawyerFinalConfirmation and stamping the approval time;
`lawyerConfirm` succeeds iff the record exists, the caller is its lawyer,
and the status is PendingLawyerFinalConfirmation, moving it to Completed
and stamping the confirmation time. -/
theorem transition_table (s : State) :
    (∀ sender title client t,
      (∃ r, createContract s sender title client t = .ok r) ↔
        (¬client = 0 ∧ ¬client = sender ∧ ¬title = ""))
    ∧ (∀ sender title client t s' cid,
        createContract s sender title client t = .ok (s', cid) →
          cid = s.totalContracts ∧
          s'.contracts cid =
            { id := s.totalContracts, title := title,
              encryptedContent := s.nextHandle, lawyer := sender,
              client := client, status := ContractStatus.PendingClientApproval,
              createdAt := t, clientApprovedAt := 0, lawyerConfirmedAt := 0,
              exists_ := true })
    ∧ (Reachable s → ∀ sender title client t s' cid,
        createContract s sender title client t = .ok (s', cid) →
          (s.contracts cid).exists_ = false)
    ∧ (∀ sender cid t,
        (∃ s', clientApprove s sender cid t = .ok s') ↔
          ((s.contracts cid).exists_ = true ∧ (s.contracts cid).client = sender ∧
           (s.contracts cid).status = ContractStatus.PendingClientApproval))
    ∧ (∀ sender cid t s', clientApprove s sender cid t = .ok s' →
        (s'.contracts cid).status = ContractStatus.PendingLawyerFinalConfirmation ∧
        (s'.contracts cid).clientApprovedAt = t)
    ∧ (∀ sender cid t,
        (∃ s', lawyerConfirm s sender cid t = .ok s') ↔
          ((s.contracts cid).exists_ = true ∧ (s.contracts cid).lawyer = sender ∧
           (s.contracts cid).status = ContractStatus.PendingLawyerFinalConfirmation))
    ∧ (∀ sender cid t s', lawyerConfirm s sender cid t = .ok s' →
        (s'.contracts cid).status = ContractStatus.Completed ∧
        (s'.contracts cid).lawyerConfirmedAt = t) := by
  refine ⟨fun sender title client t => createContract_ok_iff s sender title client t,
          ?_, ?_,
          fun sender cid t => clientApprove_ok_iff s sender cid t,
          ?_,
          fun sender cid t => lawyerConfirm_ok_iff s sender cid t,
          ?_⟩
  · intro sender title client t s' cid h
    obtain ⟨_, _, _, hcid, hs'⟩ := createContract_ok _ _ _ _ _ _ _ h
    subst hcid
    subst hs'
    exact ⟨rfl, by simp [upd]⟩
  · intro hs sender title client t s' cid h
    obtain ⟨_, _, _, hcid, _⟩ := createContract_ok _ _ _ _ _ _ _ h
    subst hcid
    rw [(reachable_inv s hs).fresh s.totalContracts (Nat.le_refl _)]
    rfl
  · intro sender cid t s' h
    obtain ⟨_, _, _, hs'⟩ := clientApprove_ok _ _ _ _ _ h
    subst hs'
    exact ⟨by simp [upd], by simp [upd]⟩
  · intro sender cid t s' h
    obtain ⟨_, _, _, hs'⟩ := lawyerConfirm_ok _ _ _ _ _ h
    subst hs'
    exact ⟨by simp [upd], by simp [upd]⟩

/-- C1 witness: the transitions exhibited on the demo run (a create on
top of `demo2`, the approve taking `demo1` to `demo2`, and the confirm
taking `demo2` to `demo3`). -/
theorem transition_table_witness :
    ((∃ r, createContract demo2 1 "X" 3 40 = .ok r) ↔
      (¬(3 : Nat) = 0 ∧ ¬(3 : Nat) = 1 ∧ ¬"X" = ""))
    ∧ (1 = demo2.totalContracts ∧
        ((step demo2 (Event.create 1 "X" 3 40)).contracts 1) =
          { id := demo2.totalContracts, title := "X",
            encryptedContent := demo2.nextHandle, lawyer := 1, client := 3,
            status := ContractStatus.PendingClientApproval, createdAt := 40,
            clientApprovedAt := 0, lawyerConfirmedAt := 0, exists_ := true })
    ∧ ((demo2.contracts 1).exists_ = false)
    ∧ ((∃ s', clientApprove demo1 2 0 20 = .ok s') ↔
        ((demo1.contracts 0).exists_ = true ∧ (demo1.contracts 0).client = 2 ∧
         (demo1.contracts 0).status = ContractStatus.PendingClientApproval))
    ∧ ((demo2.contracts 0).status = ContractStatus.PendingLawyerFinalConfirmation ∧
        (demo2.contracts 0).clientApprovedAt = 20)
    ∧ ((∃ s', lawyerConfirm demo2 1 0 30 = .ok s') ↔
        ((demo2.contracts 0).exists_ = true ∧ (demo2.contracts 0).lawyer = 1 ∧
         (demo2.contracts 0).status = ContractStatus.PendingLawyerFinalConfirmation))
    ∧ ((demo3.contracts 0).status = ContractStatus.Completed ∧
        (demo3.contracts 0).lawyerConfirmedAt = 30) :=
  ⟨(transition_table demo2).1 1 "X" 3 40,
   (transition_table demo2).2.1 1 "X" 3 40 (step demo2 (Event.create 1 "X" 3 40)) 1 rfl,
   (transition_table demo2).2.2.1 ⟨[Event.create 1 "NDA" 2 10, Event.approve 2 0 20], rfl⟩
     1 "X" 3 40 (step demo2 (Event.create 1 "X" 3 40)) 1 rfl,
   (transition_table demo1).2.2.2.1 2 0 20,
   (transition_table demo1).2.2.2.2.1 2 0 20 demo2 rfl,
   (transition_table demo2).2.2.2.2.2.1 1 0 30,
   (transition_table demo2).2.2.2.2.2.2 1 0 30 demo3 rfl⟩

/-- C8: a successful `clientApprove` changes only the addressed record's
`status` and `clientApprovedAt`, and a successful `lawyerConfirm` only its
`status` and `lawyerConfirmedAt` plus the external access grants; every
other record field, every other record, the party indexes and the counter
are untouched. -/
theorem approve_confirm_frame (s : State) :
    (∀ sender cid t s', clientApprove s sender cid t = .ok s' →
      (s'.contracts cid).id = (s.contracts cid).id ∧
      (s'.contracts cid).title = (s.contracts cid).title ∧
      (s'.contracts cid).encryptedContent = (s.contracts cid).encryptedContent ∧
      (s'.contracts cid).lawyer = (s.contracts cid).lawyer ∧
      (s'.contracts cid).client = (s.contracts cid).client ∧
      (s'.contracts cid).createdAt = (s.contracts cid).createdAt ∧
      (s'.contracts cid).lawyerConfirmedAt = (s.contracts cid).lawyerConfirmedAt ∧
      (s'.contracts cid).exists_ = (s.contracts cid).exists_ ∧
      (∀ j, ¬j = cid → s'.contracts j = s.contracts j) ∧
      s'.clientContracts = s.clientContracts ∧
      s'.lawyerContracts = s.lawyerContracts ∧
      s'.totalContracts = s.totalContracts ∧
      s'.acl = s.acl ∧ s'.aclThis = s.aclThis ∧ s'.nextHandle = s.nextHandle)
    ∧ (∀ sender cid t s', lawyerConfirm s sender cid t = .ok s' →
        (s'.contracts cid).id = (s.contracts cid).id ∧
        (s'.contracts cid).title = (s.contracts cid).title ∧
        (s'.contracts cid).encryptedContent = (s.contracts cid).encryptedContent ∧
        (s'.contracts cid).lawyer = (s.contracts cid).lawyer ∧
        (s'.contracts cid).client = (s.contracts cid).client ∧
        (s'.contracts cid).createdAt = (s.contracts cid).createdAt ∧
        (s'.contracts cid).clientApprovedAt = (s.contracts cid).clientApprovedAt ∧
        (s'.contracts cid).exists_ = (s.contracts cid).exists_ ∧
        (∀ j, ¬j = cid → s'.contracts j = s.contracts j) ∧
        s'.clientContracts = s.clientContracts ∧
        s'.lawyerContracts = s.lawyerContracts ∧
        s'.totalContracts = s.totalContracts ∧
        s'.acl = s.acl ++
          [((s.contracts cid).encryptedContent, (s.contracts cid).lawyer),
           ((s.contracts cid).encryptedContent, (s.contracts cid).client)] ∧
        s'.aclThis = s.aclThis ∧ s'.nextHandle = s.nextHandle) := by
  constructor
  · intro sender cid t s' h
    obtain ⟨_, _, _, hs'⟩ := clientApprove_ok _ _ _ _ _ h
    subst hs'
    refine ⟨by simp [upd], by simp [upd], by simp [upd], by simp [upd],
            by simp [upd], by simp [upd], by simp [upd], by simp [upd],
            ?_, rfl, rfl, rfl, rfl, rfl, rfl⟩
    intro j hj
    simp [upd, hj]
  · intro sender cid t s' h
    obtain ⟨_, _, _, hs'⟩ := lawyerConfirm_ok _ _ _ _ _ h
    subst hs'
    refine ⟨by simp [upd], by simp [upd], by simp [upd], by simp [upd],
            by simp [upd], by simp [upd], by simp [upd], by simp [upd],
            ?_, rfl, rfl, rfl, rfl, rfl, rfl⟩
    intro j hj
    simp [upd, hj]

/-- C8 witness: the frame conditions exhibited on the approve taking
`demo1` to `demo2` and the confirm taking `demo2` to `demo3`. -/
theorem approve_confirm_frame_witness :
    ((demo2.contracts 0).lawyer = (demo1.contracts 0).lawyer ∧
      (demo2.contracts 0).client = (demo1.contracts 0).client ∧
      demo2.totalContracts = demo1.totalContracts ∧
      demo2.acl = demo1.acl)
    ∧ ((demo3.contracts 0).clientApprovedAt = (demo2.contracts 0).clientApprovedAt ∧
        demo3.totalContracts = demo2.totalContracts ∧
        demo3.acl = demo2.acl ++
          [((demo2.contracts 0).encryptedContent, (demo2.contracts 0).lawyer),
           ((demo2.contracts 0).encryptedContent, (demo2.contracts 0).client)]) := by
  have h1 := (approve_confirm_frame demo1).1 2 0 20 demo2 rfl
  have h2 := (approve_confirm_frame demo2).2 1 0 30 demo3 rfl
  exact ⟨⟨h1.2.2.2.1, h1.2.2.2.2.1, h1.2.2.2.2.2.2.2.2.2.2.2.1,
          h1.2.2.2.2.2.2.2.2.2.2.2.2.1⟩,
         ⟨h2.2.2.2.2.2.2.1, h2.2.2.2.2.2.2.2.2.2.2.2.1,
          h2.2.2.2.2.2.2.2.2.2.2.2.2.1⟩⟩

lemma statusRank_step (s : State) (e : Event) (cid : Nat) (hInv : Inv s) :
    statusRank ((step s e).contracts cid).status
      = statusRank (s.contracts cid).status ∨
    statusRank ((step s e).contracts cid).status
      = statusRank (s.contracts cid).status + 1 := by
  cases e with
  | create sender title client t =>
      simp only [step]
      cases hc : createContract s sender title client t with
      | ok r =>
          obtain ⟨s', cid'⟩ := r
          obtain ⟨_, _, _, _, hs'⟩ := createContract_ok _ _ _ _ _ _ _ hc
          subst hs'
          by_cases hide : cid = s.totalContracts
          · subst hide
            left
            rw [hInv.fresh s.totalContracts (Nat.le_refl _)]
            simp [upd, statusRank, defaultContract]
          · left
            simp [upd, hide]
      | error m => left; rfl
  | approve sender cid' t =>
      simp only [step]
      cases hc : clientApprove s sender cid' t with
      | ok s' =>
          obtain ⟨_, _, hstp, hs'⟩ := clientApprove_ok _ _ _ _ _ hc
          subst hs'
          by_cases hide : cid = cid'
          · subst hide
            right
            rw [hstp]
            simp [upd, statusRank]
          · left
            simp [upd, hide]
      | error m => left; rfl
  | confirm sender cid' t =>
      simp only [step]
      cases hc : lawyerConfirm s sender cid' t with
      | ok s' =>
          obtain ⟨_, _, hstp, hs'⟩ := lawyerConfirm_ok _ _ _ _ _ hc
          subst hs'
          by_cases hide : cid = cid'
          · subst hide
            right
            rw [hstp]
            simp [upd, statusRank]
          · left
            simp [upd, hide]
      | error m => left; rfl

lemma statusRank_le_run (s : State) (evts : List Event) (cid : Nat) (hInv : Inv s) :
    statusRank (s.contracts cid).status
      ≤ statusRank ((run s evts).contracts cid).status := by
  induction evts generalizing s with
  | nil => exact Nat.le_refl _
  | cons e es ih =>
      have h1 := statusRank_step s e cid hInv
      have h2 := ih (step s e) (inv_step s e hInv)
      have hrun : run s (e :: es) = run (step s e) es := rfl
      rw [hrun]
      rcases h1 with h1 | h1 <;> omega

/-- C5: from any reachable state, each transaction moves a record's
status at most one step forward along
PendingClientApproval → PendingLawyerFinalConfirmation → Completed and
never backwards; across any transaction sequence the status never
decreases; a transaction that fails leaves the whole storage (hence the
record, every field included) exactly as it was; and any event whose
guard is not legal in the current state does fail with an error: a create
violating the input guards, an approve without an existing record in
PendingClientApproval addressed to its client, or a confirm without an
existing record in PendingLawyerFinalConfirmation addressed to its
lawyer, all return an error. -/
theorem status_monotone (s : State) (e : Event) (cid : Nat) (hs : Reachable s) :
    (statusRank ((step s e).contracts cid).status
        = statusRank (s.contracts cid).status ∨
     statusRank ((step s e).contracts cid).status
        = statusRank (s.contracts cid).status + 1)
    ∧ (∀ evts, statusRank (s.contracts cid).status
        ≤ statusRank ((run s evts).contracts cid).status)
    ∧ (∀ msg, txResult s e = .error msg → step s e = s)
    ∧ (∀ sender title client t,
        ¬(¬client = 0 ∧ ¬client = sender ∧ ¬title = "") →
        ∃ msg, txResult s (Event.create sender title client t) = .error msg)
    ∧ (∀ sender cid' t,
        ¬((s.contracts cid').exists_ = true ∧ (s.contracts cid').client = sender ∧
          (s.contracts cid').status = ContractStatus.PendingClientApproval) →
        ∃ msg, txResult s (Event.approve sender cid' t) = .error msg)
    ∧ (∀ sender cid' t,
        ¬((s.contracts cid').exists_ = true ∧ (s.contracts cid').lawyer = sender ∧
          (s.contracts cid').status = ContractStatus.PendingLawyerFinalConfirmation) →
        ∃ msg, txResult s (Event.confirm sender cid' t) = .error msg) := by
  have hInv := reachable_inv s hs
  refine ⟨statusRank_step s e cid hInv,
          fun evts => statusRank_le_run s evts cid hInv, ?_, ?_, ?_, ?_⟩
  · intro msg hmsg
    cases e with
    | create sender title client t =>
        simp only [txResult] at hmsg
        simp only [step]
        cases hc : createContract s sender title client t with
        | ok r =>
            rw [hc] at hmsg
            simp [Except.map] at hmsg
        | error m => rfl
    | approve sender cid' t =>
        simp only [txResult] at hmsg
        simp only [step]
        cases hc : clientApprove s sender cid' t with
        | ok s' =>
            rw [hc] at hmsg
            simp at hmsg
        | error m => rfl
    | confirm sender cid' t =>
        simp only [txResult] at hmsg
        simp only [step]
        cases hc : lawyerConfirm s sender cid' t with
        | ok s' =>
            rw [hc] at hmsg
            simp at hmsg
        | error m => rfl
  · intro sender title client t hng
    cases hc : createContract s sender title client t with
    | ok r =>
        exact absurd ((createContract_ok_iff s sender title client t).1 ⟨r, hc⟩) hng
    | error m =>
        exact ⟨m, by simp [txResult, hc, Except.map]⟩
  · intro sender cid' t hng
    cases hc : clientApprove s sender cid' t with
    | ok s' =>
        exact absurd ((clientApprove_ok_iff s sender cid' t).1 ⟨s', hc⟩) hng
    | error m =>
        exact ⟨m, by simp [txResult, hc]⟩
  · intro sender cid' t hng
    cases hc : lawyerConfirm s sender cid' t with
    | ok s' =>
        exact absurd ((lawyerConfirm_ok_iff s sender cid' t).1 ⟨s', hc⟩) hng
    | error m =>
        exact ⟨m, by simp [txResult, hc]⟩

/-- C5 witness: on the demo run, an approve by the wrong caller (`7`)
fails and leaves `demo1` unchanged, the status of record `0` only climbs
along the demo sequence, and each kind of illegal event (create with the
zero client, approve by a non-client, confirm while still pending client
approval) returns an error. -/
theorem status_monotone_witness :
    (statusRank ((step demo1 (Event.approve 7 0 20)).contracts 0).status
        = statusRank (demo1.contracts 0).status ∨
     statusRank ((step demo1 (Event.approve 7 0 20)).contracts 0).status
        = statusRank (demo1.contracts 0).status + 1)
    ∧ statusRank (demo1.contracts 0).status ≤
        statusRank ((run demo1 [Event.approve 2 0 20, Event.confirm 1 0 30]).contracts 0).status
    ∧ step demo1 (Event.approve 7 0 20) = demo1
    ∧ (∃ msg, txResult demo1 (Event.create 1 "T" 0 40) = .error msg)
    ∧ (∃ msg, txResult demo1 (Event.approve 7 0 20) = .error msg)
    ∧ (∃ msg, txResult demo1 (Event.confirm 1 0 30) = .error msg) :=
  have h := status_monotone demo1 (Event.approve 7 0 20) 0
    ⟨[Event.create 1 "NDA" 2 10], rfl⟩
  ⟨h.1, h.2.1 [Event.approve 2 0 20, Event.confirm 1 0 30],
   h.2.2.1 "Only client can approve" rfl,
   h.2.2.2.1 1 "T" 0 40 (by decide),
   h.2.2.2.2.1 7 0 20 (by decide),
   h.2.2.2.2.2 1 0 30 (by decide)⟩

/-- C4: in every reachable state, the record's lawyer and client hold a
decryption grant on the record's ciphertext handle exactly when the
record is Completed; the only grant-mutating operation is `lawyerConfirm`
(which appends the two party grants), while `createContract` and
`clientApprove` leave the grant list untouched. -/
theorem grants_iff_completed (s : State) (hs : Reachable s) :
    (∀ cid, cid < s.totalContracts →
      ((((s.contracts cid).encryptedContent, (s.contracts cid).lawyer) ∈ s.acl ∧
        ((s.contracts cid).encryptedContent, (s.contracts cid).client) ∈ s.acl) ↔
        (s.contracts cid).status = ContractStatus.Completed))
    ∧ (∀ s2 sender title client t s' cid,
        createContract s2 sender title client t = .ok (s', cid) → s'.acl = s2.acl)
    ∧ (∀ s2 sender cid t s', clientApprove s2 sender cid t = .ok s' →
        s'.acl = s2.acl)
    ∧ (∀ s2 sender cid t s', lawyerConfirm s2 sender cid t = .ok s' →
        s'.acl = s2.acl ++
          [((s2.contracts cid).encryptedContent, (s2.contracts cid).lawyer),
           ((s2.contracts cid).encryptedContent, (s2.contracts cid).client)]) := by
  have hInv := reachable_inv s hs
  refine ⟨?_, ?_, ?_, ?_⟩
  · intro cid hcid
    constructor
    · rintro ⟨hl, _⟩
      obtain ⟨id', hlt', h1, h2, _⟩ := hInv.aclSound _ hl
      by_cases he : cid = id'
      · rw [he]
        exact h2
      · exact absurd h1 (hInv.handleInj cid id' hcid hlt' he)
    · intro hcomp
      exact hInv.aclComplete cid hcid hcomp
  · intro s2 sender title client t s' cid h
    obtain ⟨_, _, _, _, hs'⟩ := createContract_ok _ _ _ _ _ _ _ h
    subst hs'
    rfl
  · intro s2 sender cid t s' h
    obtain ⟨_, _, _, hs'⟩ := clientApprove_ok _ _ _ _ _ h
    subst hs'
    rfl
  · intro s2 sender cid t s' h
    obtain ⟨_, _, _, hs'⟩ := lawyerConfirm_ok _ _ _ _ _ h
    subst hs'
    rfl

/-- C4 witness: on the demo run, record `0`'s party grants appear in the
grant list exactly at the confirm step, and the three operations touch
the grant list as stated. -/
theorem grants_iff_completed_witness :
    ((((demo3.contracts 0).encryptedContent, (demo3.contracts 0).lawyer) ∈ demo3.acl ∧
      ((demo3.contracts 0).encryptedContent, (demo3.contracts 0).client) ∈ demo3.acl) ↔
      (demo3.contracts 0).status = ContractStatus.Completed)
    ∧ demo1.acl = initialState.acl
    ∧ demo2.acl = demo1.acl
    ∧ demo3.acl = demo2.acl ++
        [((demo2.contracts 0).encryptedContent, (demo2.contracts 0).lawyer),
         ((demo2.contracts 0).encryptedContent, (demo2.contracts 0).client)] :=
  have h := grants_iff_completed demo3 ⟨demoEvents, rfl⟩
  ⟨h.1 0 (by decide),
   h.2.1 initialState 1 "NDA" 2 10 demo1 0 rfl,
   h.2.2.1 demo1 2 0 20 demo2 rfl,
   h.2.2.2 demo2 1 0 30 demo3 rfl⟩

/-- C10: `createContract` assigns id `totalContracts`, increments the
counter by one, and appends the id to both party indexes; consequently in
every reachable state `getClientContracts c` (resp. `getLawyerContracts
l`) returns exactly the ids of records whose client (resp. lawyer) is the
queried identity, in creation order and without duplicates. -/
theorem sequential_ids_and_indexes (s : State) (hs : Reachable s) :
    (∀ sender title client t, ¬client = 0 → ¬client = sender → ¬title = "" →
      ∃ s', createContract s sender title client t = .ok (s', s.totalContracts) ∧
        s'.totalContracts = s.totalContracts + 1 ∧
        s'.clientContracts client = s.clientContracts client ++ [s.totalContracts] ∧
        s'.lawyerContracts sender = s.lawyerContracts sender ++ [s.totalContracts])
    ∧ (∀ a, getClientContracts s a =
        (List.range s.totalContracts).filter (fun id => (s.contracts id).client == a))
    ∧ (∀ a, getLawyerContracts s a =
        (List.range s.totalContracts).filter (fun id => (s.contracts id).lawyer == a))
    ∧ (∀ a id, id ∈ getClientContracts s a ↔
        (id < s.totalContracts ∧ (s.contracts id).client = a))
    ∧ (∀ a id, id ∈ getLawyerContracts s a ↔
        (id < s.totalContracts ∧ (s.contracts id).lawyer = a))
    ∧ (∀ a, (getClientContracts s a).Nodup ∧
        List.Sorted Nat.lt (getClientContracts s a))
    ∧ (∀ a, (getLawyerContracts s a).Nodup ∧
        List.Sorted Nat.lt (getLawyerContracts s a)) := by
  have hInv := reachable_inv s hs
  refine ⟨?_, hInv.clientIdx, hInv.lawyerIdx, ?_, ?_, ?_, ?_⟩
  · intro sender title client t h0 h1 h2
    obtain ⟨r, hr⟩ := (createContract_ok_iff s sender title client t).2 ⟨h0, h1, h2⟩
    obtain ⟨s', cid⟩ := r
    obtain ⟨_, _, _, hcid, hs'⟩ := createContract_ok _ _ _ _ _ _ _ hr
    subst hcid
    refine ⟨s', hr, ?_, ?_, ?_⟩ <;> subst hs'
    · rfl
    · simp [upd]
    · simp [upd]
  · intro a id
    rw [getClientContracts, hInv.clientIdx a]
    simp only [List.mem_filter, List.mem_range, beq_iff_eq]
  · intro a id
    rw [getLawyerContracts, hInv.lawyerIdx a]
    simp only [List.mem_filter, List.mem_range, beq_iff_eq]
  · intro a
    rw [getClientContracts, hInv.clientIdx a]
    exact ⟨List.Nodup.filter _ (List.nodup_range _),
           List.Pairwise.filter _ (List.sorted_lt_range _)⟩
  · intro a
    rw [getLawyerContracts, hInv.lawyerIdx a]
    exact ⟨List.Nodup.filter _ (List.nodup_range _),
           List.Pairwise.filter _ (List.sorted_lt_range _)⟩

/-- C10 witness: a create on top of `demo3` gets id `totalContracts` and
extends both indexes; the client index of `2` in `demo3` is exactly
`[0]`, nodup and sorted. -/
theorem sequential_ids_and_indexes_witness :
    (∃ s', createContract demo3 4 "Second" 9 50 = .ok (s', demo3.totalContracts) ∧
      s'.totalContracts = demo3.totalContracts + 1 ∧
      s'.clientContracts 9 = demo3.clientContracts 9 ++ [demo3.totalContracts] ∧
      s'.lawyerContracts 4 = demo3.lawyerContracts 4 ++ [demo3.totalContracts])
    ∧ getClientContracts demo3 2 =
        (List.range demo3.totalContracts).filter (fun id => (demo3.contracts id).client == 2)
    ∧ ((0 ∈ getClientContracts demo3 2) ↔
        (0 < demo3.totalContracts ∧ (demo3.contracts 0).client = 2))
    ∧ ((getClientContracts demo3 2).Nodup ∧
        List.Sorted Nat.lt (getClientContracts demo3 2)) :=
  have h := sequential_ids_and_indexes demo3 ⟨demoEvents, rfl⟩
  ⟨h.1 4 "Second" 9 50 (by decide) (by decide) (by decide),
   h.2.1 2, h.2.2.2.1 2 0, h.2.2.2.2.2.1 2⟩

end LawVault
